import Mathlib

/-! Sumeragi consensus core (`core/consensus/sumeragi.cpp`).

A shallow embedding of the block-processing state machine of Sumeragi:
signature counting, the chain-position picker `getNextOrder`, `processBlock`
and `panic`.

Modelling conventions.

* The protobuf messages `Signature` and `Block` are records; the repeated field
  `peer_signature` is a list in wire order.
* The collaborators that live outside the file (`crypto::hash`,
  `crypto::signature`, `validator::stateful`, protobuf serialisation) are the
  fields of `Collaborators`; every definition takes them as a parameter.
* `common::datetime::unixtime()` is read once per `createSignedBlock`; its
  value is the argument `unixtime`.
* The function-local `static int currentProxyTail` is threaded explicitly:
  `getNextOrder`, `processBlock` and `panic` take its value and return the new
  one.  It starts at `getNumValidatingPeers() - 1`, is never decremented, and is
  incremented only while it is below `getNumAllPeers()`, so for peer counts
  below `2 ^ 31` it is a natural number and the mixed `int`/`size_t` comparison
  is the comparison of naturals.
* Calls on `sender`, on `log` and `setTimeOutCommit` are recorded, in program
  order, in a list of `Effect`s.
* `getMaxFaulty()` and `getNumAllPeers()` are the two fields of `PeerService`;
  `hardcoded` carries the constants written in the source.
* The lambda registered at start-up is `receiveHandler`; it returns the blocks for
  which a `processBlock` task is handed to the pool.
* A history of the peer is a list of `Invocation`s (pool tasks and timer expiries) run
  by `runAll` from the startup value of the proxy tail.
-/

namespace Sumeragi

/-- Protobuf message `Signature`. -/
structure Signature where
  pubkey : String
  signature : String
deriving DecidableEq, Repr

/-- Protobuf message `Block.Body`: the transactions, as an uninterpreted payload. -/
structure Body where
  txs : List String
deriving DecidableEq, Repr

/-- Protobuf message `Block.Header`. -/
structure Header where
  created_time : Nat
  peer_signature : List Signature
deriving DecidableEq, Repr

/-- Protobuf message `Block`. -/
structure Block where
  header : Header
  body : Body
deriving DecidableEq, Repr

/-- The functions `sumeragi.cpp` calls in other translation units. -/
structure Collaborators where
  /-- The hash `crypto::hash::sha3_256_hex(message)`. -/
  sha3_256_hex : String → String
  /-- The primitive `crypto::signature::sign(message, pk, sk)`, as the byte string. -/
  sign : String → String → String → String
  /-- The primitive `crypto::signature::verify(signature, message, pk)`. -/
  verify : String → String → String → Bool
  /-- The check `validator::stateful::validate(block)`. -/
  validate : Block → Bool
  /-- The protobuf method `SerializeAsString()` on a block body. -/
  serializeAsString : Body → String

/-- The values of `getMaxFaulty()` and `getNumAllPeers()`. -/
structure PeerService where
  getMaxFaulty : Nat
  getNumAllPeers : Nat
deriving DecidableEq, Repr

/-- The constants as written: `getMaxFaulty` returns 3, `getNumAllPeers` returns 4. -/
def hardcoded : PeerService :=
  { getMaxFaulty := 3, getNumAllPeers := 4 }

/-- The function `getNumValidatingPeers`: `getMaxFaulty() * 2 + 1`. -/
def PeerService.getNumValidatingPeers (ps : PeerService) : Nat :=
  ps.getMaxFaulty * 2 + 1

/-- Observable actions of `processBlock` and `panic`, in program order. -/
inductive Effect where
  | logInfo (msg : String)
  | logError (msg : String)
  | broadCast (block : Block)
  | unicast (block : Block) (order : Nat)
  | commit (block : Block)
  | setTimeOutCommit (block : Block)
deriving DecidableEq, Repr

/-- The stub `appendBlock`: returns the empty string. -/
def appendBlock (_block : Block) : String := ""

/-- The function `createSignedBlock`: copy the block, stamp `created_time`, append the
local signature over `merkleRoot`. -/
def createSignedBlock (c : Collaborators) (unixtime : Nat) (block : Block)
    (merkleRoot : String) : Block :=
  let pk := "pk"
  let sk := "sk"
  let str_sigblob := c.sign merkleRoot pk sk
  let newSignature : Signature := { pubkey := pk, signature := str_sigblob }
  { header :=
      { created_time := unixtime
        peer_signature := block.header.peer_signature ++ [newSignature] }
    body := block.body }

/-- The function `isLeader`: the block carries exactly one signature entry. -/
def isLeader (block : Block) : Bool :=
  block.header.peer_signature.length == 1

/-- Initial value of the static `currentProxyTail`. -/
def initialProxyTail (ps : PeerService) : Nat :=
  ps.getNumValidatingPeers - 1

/-- The function `getNextOrder` on the stored `currentProxyTail`: the returned `int`
and the value stored afterwards. -/
def getNextOrder (ps : PeerService) (currentProxyTail : Nat) : Int × Nat :=
  if currentProxyTail ≥ ps.getNumAllPeers then
    (-1, currentProxyTail)
  else
    ((currentProxyTail : Int), currentProxyTail + 1)

/-- The `for` loop of `countValidSignatures` over the remaining entries, from the
current `numValidSignatures` and `usedPubkeys`. -/
def countLoop (c : Collaborators) (block : Block) :
    List Signature → Nat → List String → Nat
  | [], numValidSignatures, _ => numValidSignatures
  | sig :: rest, numValidSignatures, usedPubkeys =>
    if sig.pubkey ∈ usedPubkeys then
      countLoop c block rest numValidSignatures usedPubkeys
    else
      let bodyMessage := c.serializeAsString block.body
      let hash := c.sha3_256_hex bodyMessage
      if c.verify sig.signature hash sig.pubkey then
        countLoop c block rest (numValidSignatures + 1) (sig.pubkey :: usedPubkeys)
      else
        countLoop c block rest numValidSignatures usedPubkeys

/-- The function `countValidSignatures`. -/
def countValidSignatures (c : Collaborators) (block : Block) : Nat :=
  countLoop c block block.header.peer_signature 0 []

/-- The function `processBlock`: the effects it performs and the stored proxy tail
afterwards. -/
def processBlock (c : Collaborators) (ps : PeerService) (unixtime : Nat)
    (block : Block) (currentProxyTail : Nat) : List Effect × Nat :=
  let valid := c.validate block
  if !valid then
    ([Effect.logInfo "Stateful validation failed."], currentProxyTail)
  else
    let merkleRoot := appendBlock block
    let newBlock := createSignedBlock c unixtime block merkleRoot
    if isLeader newBlock then
      ([Effect.broadCast newBlock, Effect.setTimeOutCommit newBlock], currentProxyTail)
    else
      let numValidSignatures := countValidSignatures c newBlock
      if numValidSignatures < ps.getNumValidatingPeers then
        let next := getNextOrder ps currentProxyTail
        if next.1 < 0 then
          ([Effect.logError "getNextOrder() < 0 in processBlock"], next.2)
        else
          ([Effect.unicast newBlock next.1.toNat, Effect.setTimeOutCommit newBlock], next.2)
      else if numValidSignatures = ps.getNumValidatingPeers then
        ([Effect.commit newBlock, Effect.setTimeOutCommit newBlock], currentProxyTail)
      else
        ([], currentProxyTail)

/-- The function `panic`: the effects it performs and the stored proxy tail afterwards. -/
def panic (ps : PeerService) (block : Block) (currentProxyTail : Nat) :
    List Effect × Nat :=
  let next := getNextOrder ps currentProxyTail
  if next.1 < 0 then
    ([Effect.logInfo "否認"], next.2)
  else
    ([Effect.unicast block next.1.toNat, Effect.setTimeOutCommit block], next.2)

/-- Repeated timer expiry: `k` successive `panic` calls on the same block, with the
effects concatenated in order. -/
def panicTimes (ps : PeerService) (block : Block) : Nat → Nat → List Effect × Nat
  | 0, currentProxyTail => ([], currentProxyTail)
  | k + 1, currentProxyTail =>
    let first := panic ps block currentProxyTail
    let later := panicTimes ps block k first.2
    (first.1 ++ later.1, later.2)

/-- The lambda that the start-up function registers with `connection::consensus::receive`:
the blocks for which a `processBlock` task is handed to `pool.process`.  The committed
check is the literal `false` of the source. -/
def receiveHandler (block : Block) : List Block :=
  if false then
    []
  else
    [block]

/-- One entry point being run on this peer: a pool task `processBlock(block)`, with the
clock value it reads, or a timer expiry `panic(block)`. -/
inductive Invocation where
  | processBlockCall (unixtime : Nat) (block : Block)
  | panicCall (block : Block)
deriving DecidableEq, Repr

/-- Run one invocation from the stored proxy tail. -/
def Invocation.run (c : Collaborators) (ps : PeerService) :
    Invocation → Nat → List Effect × Nat
  | Invocation.processBlockCall unixtime block, currentProxyTail =>
    processBlock c ps unixtime block currentProxyTail
  | Invocation.panicCall block, currentProxyTail =>
    panic ps block currentProxyTail

/-- Run a sequence of invocations one after the other, threading the stored proxy tail
and concatenating the effects. -/
def runAll (c : Collaborators) (ps : PeerService) :
    List Invocation → Nat → List Effect × Nat
  | [], currentProxyTail => ([], currentProxyTail)
  | inv :: rest, currentProxyTail =>
    let first := inv.run c ps currentProxyTail
    let later := runAll c ps rest first.2
    (first.1 ++ later.1, later.2)

/-- The block with one more entry added at the end of `peer_signature` (protobuf `Add`),
everything else unchanged. -/
def appendSignature (block : Block) (s : Signature) : Block :=
  { header :=
      { created_time := block.header.created_time
        peer_signature := block.header.peer_signature ++ [s] }
    body := block.body }

/-- The block with the entry `s` inserted before position `i` of `peer_signature` (at the
end when `i` is past the end), everything else unchanged. -/
def insertSignature (block : Block) (i : Nat) (s : Signature) : Block :=
  { header :=
      { created_time := block.header.created_time
        peer_signature :=
          block.header.peer_signature.take i ++ s :: block.header.peer_signature.drop i }
    body := block.body }

/-! ### Observations on effect traces -/

/-- Is the effect a `sender.broadCast`? -/
def Effect.isBroadCast : Effect → Bool
  | Effect.broadCast _ => true
  | _ => false

/-- Is the effect a `sender.unicast`? -/
def Effect.isUnicast : Effect → Bool
  | Effect.unicast _ _ => true
  | _ => false

/-- Is the effect a `sender.commit`? -/
def Effect.isCommit : Effect → Bool
  | Effect.commit _ => true
  | _ => false

/-- Is the effect a `setTimeOutCommit` (a timer being armed)? -/
def Effect.isTimer : Effect → Bool
  | Effect.setTimeOutCommit _ => true
  | _ => false

/-- Is the effect an outbound message (broadcast, unicast or commit)? -/
def Effect.isSend (e : Effect) : Bool :=
  e.isBroadCast || e.isUnicast || e.isCommit

/-- Does the entry verify against `sha3_256_hex` of the serialised body under its
declared public key? -/
def verifies (c : Collaborators) (block : Block) (sig : Signature) : Bool :=
  c.verify sig.signature (c.sha3_256_hex (c.serializeAsString block.body)) sig.pubkey

/-- The distinct public keys that have at least one verifying entry in the block. -/
def validPubkeys (c : Collaborators) (block : Block) : List String :=
  ((block.header.peer_signature.filter (verifies c block)).map Signature.pubkey).dedup

/-- The distinct public keys that occur in the block's signature list. -/
def distinctPubkeys (block : Block) : List String :=
  (block.header.peer_signature.map Signature.pubkey).dedup

/-! ### A toy instantiation used for concrete evaluation -/

/-- A toy scheme: the hash puts `h` in front of the message, a signature is the signed
message itself, and verification compares the signature with the message, so that
`verify (sign m pk sk) m' pk` holds exactly when `m' = m`.  Validation accepts the
blocks with a non-empty body. -/
def toy : Collaborators :=
  { sha3_256_hex := fun m => "h" ++ m
    sign := fun m _ _ => m
    verify := fun s m _ => s == m
    validate := fun b => !b.body.txs.isEmpty
    serializeAsString := fun b => String.join b.txs }

/-- The peer counts of the specification's scenarios: `f = 1`, `N = 4`. -/
def scenario : PeerService :=
  { getMaxFaulty := 1, getNumAllPeers := 4 }

/-- A single peer: `f = 0`, `N = 1`, quorum `1`. -/
def solo : PeerService :=
  { getMaxFaulty := 0, getNumAllPeers := 1 }

/-- A block with body `tx` and the given signature entries. -/
def blockWith (sigs : List Signature) : Block :=
  { header := { created_time := 0, peer_signature := sigs }, body := { txs := ["tx"] } }

/-- The signature of peer `pk` that verifies on `blockWith` under `toy`. -/
def validSig (pk : String) : Signature :=
  { pubkey := pk, signature := "htx" }

/-- A block arriving without any signature. -/
def blockUnsigned : Block := blockWith []

/-- A block arriving with one valid signature, from `P0`. -/
def blockP0 : Block := blockWith [validSig "P0"]

/-- A block arriving with valid signatures from `P0` and `P2`. -/
def blockP0P2 : Block := blockWith [validSig "P0", validSig "P2"]

/-- A second block with one valid signature, from `P3`. -/
def blockP3 : Block := blockWith [validSig "P3"]

/-- A block with an empty body, which `toy` fails to validate. -/
def blockRejected : Block :=
  { header := { created_time := 0, peer_signature := [validSig "P0"] }, body := { txs := [] } }

/-- A signature entry of peer `pk` that does not verify on `blockWith` under `toy`. -/
def invalidSig (pk : String) : Signature :=
  { pubkey := pk, signature := "bad" }

/-- A block whose only entry is an invalid signature of `P0`. -/
def blockBadP0 : Block := blockWith [invalidSig "P0"]

/-- A block with a valid signature from `P0` and an invalid one from `P2` (scenario S4
before signing). -/
def blockP0BadP2 : Block := blockWith [validSig "P0", invalidSig "P2"]

/-- The picker as the specification words it (section 4.4): pre-increment the stored
position, report exhaustion when the candidate reaches `N`, else store and return the
candidate. -/
def specNext (ps : PeerService) (proxy_tail : Nat) : Int × Nat :=
  let candidate := proxy_tail + 1
  if candidate ≥ ps.getNumAllPeers then
    (-1, proxy_tail)
  else
    ((candidate : Int), candidate)

/-! ### Signature counting -/

/-- Recording a fresh key: it is counted once and then excluded. -/
theorem card_insert_sdiff (V U : Finset String) (pk : String) (h : pk ∉ U) :
    (insert pk V \ U).card = 1 + (V \ insert pk U).card := by
  have hset : insert pk V \ U = insert pk (V \ insert pk U) := by
    ext x
    simp only [Finset.mem_sdiff, Finset.mem_insert]
    constructor
    · rintro ⟨hx | hx, hxU⟩
      · exact Or.inl hx
      · by_cases hxp : x = pk
        · exact Or.inl hxp
        · exact Or.inr ⟨hx, fun h' => h'.elim hxp hxU⟩
    · rintro (hx | ⟨hx, hxU⟩)
      · exact ⟨Or.inl hx, hx ▸ h⟩
      · exact ⟨Or.inr hx, fun h' => hxU (Or.inr h')⟩
  rw [hset, Finset.card_insert_of_not_mem, Nat.add_comm]
  simp

/-- Loop invariant of `countValidSignatures`: the loop adds to the running count the
number of public keys, not yet recorded, that have a verifying entry ahead. -/
theorem countLoop_eq (c : Collaborators) (block : Block) :
    ∀ (sigs : List Signature) (n : Nat) (used : List String),
      countLoop c block sigs n used =
        n + (((sigs.filter (verifies c block)).map Signature.pubkey).toFinset
              \ used.toFinset).card := by
  intro sigs
  induction sigs with
  | nil => intro n used; simp [countLoop]
  | cons sig rest ih =>
    intro n used
    by_cases hused : sig.pubkey ∈ used
    · have hstep : countLoop c block (sig :: rest) n used = countLoop c block rest n used := by
        simp [countLoop, hused]
      rw [hstep, ih]
      congr 2
      by_cases hv : verifies c block sig = true
      · simp only [List.filter_cons, hv, if_true, List.map_cons, List.toFinset_cons]
        rw [Finset.insert_sdiff_of_mem]
        simpa using hused
      · simp [List.filter_cons, hv]
    · by_cases hv : verifies c block sig = true
      · have hv' : c.verify sig.signature
            (c.sha3_256_hex (c.serializeAsString block.body)) sig.pubkey = true := hv
        have hstep : countLoop c block (sig :: rest) n used =
            countLoop c block rest (n + 1) (sig.pubkey :: used) := by
          simp [countLoop, hused, hv']
        rw [hstep, ih]
        simp only [List.filter_cons, hv, if_true, List.map_cons, List.toFinset_cons]
        have hnot : sig.pubkey ∉ used.toFinset := by simpa using hused
        rw [card_insert_sdiff _ _ _ hnot]
        omega
      · have hv' : c.verify sig.signature
            (c.sha3_256_hex (c.serializeAsString block.body)) sig.pubkey = false := by
          simpa [verifies] using hv
        have hstep : countLoop c block (sig :: rest) n used = countLoop c block rest n used := by
          simp [countLoop, hused, hv']
        rw [hstep, ih]
        simp [List.filter_cons, hv]

/-- The count is the number of distinct public keys with a verifying entry. -/
theorem countValidSignatures_eq_length (c : Collaborators) (block : Block) :
    countValidSignatures c block = (validPubkeys c block).length := by
  unfold countValidSignatures validPubkeys
  rw [countLoop_eq]
  simp [List.card_toFinset]

/-- The count never exceeds the number of entries. -/
theorem countValidSignatures_le_length (c : Collaborators) (block : Block) :
    countValidSignatures c block ≤ block.header.peer_signature.length := by
  rw [countValidSignatures_eq_length]
  unfold validPubkeys
  calc ((block.header.peer_signature.filter (verifies c block)).map Signature.pubkey).dedup.length
      ≤ ((block.header.peer_signature.filter (verifies c block)).map Signature.pubkey).length :=
        (List.dedup_sublist _).length_le
    _ = (block.header.peer_signature.filter (verifies c block)).length := List.length_map _ _
    _ ≤ block.header.peer_signature.length := List.length_filter_le _ _

/-- C1: `countValidSignatures` equals the number of distinct public keys having at
least one entry that verifies against `sha3_256_hex` of the serialised body, and it
never exceeds the number of distinct public keys in the list. -/
theorem countValidSignatures_counts_distinct_valid_pubkeys (c : Collaborators)
    (block : Block) :
    countValidSignatures c block = (validPubkeys c block).length
      ∧ (validPubkeys c block).Nodup
      ∧ (∀ pk, pk ∈ validPubkeys c block ↔
          ∃ sig ∈ block.header.peer_signature,
            sig.pubkey = pk ∧
            c.verify sig.signature (c.sha3_256_hex (c.serializeAsString block.body))
              sig.pubkey = true)
      ∧ countValidSignatures c block ≤ (distinctPubkeys block).length := by
  refine ⟨countValidSignatures_eq_length c block, List.nodup_dedup _, ?_, ?_⟩
  · intro pk
    simp only [validPubkeys, List.mem_dedup, List.mem_map, List.mem_filter, verifies]
    constructor
    · rintro ⟨sig, ⟨hmem, hv⟩, rfl⟩
      exact ⟨sig, hmem, rfl, hv⟩
    · rintro ⟨sig, hmem, rfl, hv⟩
      exact ⟨sig, ⟨hmem, hv⟩, rfl⟩
  · rw [countValidSignatures_eq_length]
    unfold validPubkeys distinctPubkeys
    rw [← List.card_toFinset, ← List.card_toFinset]
    apply Finset.card_le_card
    intro x hx
    simp only [List.mem_toFinset, List.mem_map, List.mem_filter] at hx ⊢
    obtain ⟨sig, ⟨hmem, _⟩, rfl⟩ := hx
    exact ⟨sig, hmem, rfl⟩

/-! ### The chain-position picker -/

/-- Below the peer count `getNextOrder` hands out the stored value and increments it. -/
theorem getNextOrder_of_lt (ps : PeerService) (p : Nat) (h : p < ps.getNumAllPeers) :
    getNextOrder ps p = ((p : Int), p + 1) := by
  unfold getNextOrder
  rw [if_neg (by omega)]

/-- At or above the peer count `getNextOrder` returns `-1` and stores nothing. -/
theorem getNextOrder_of_ge (ps : PeerService) (p : Nat) (h : ps.getNumAllPeers ≤ p) :
    getNextOrder ps p = (-1, p) := by
  unfold getNextOrder
  rw [if_pos h]

/-- The picker reports exhaustion exactly when the stored value has reached the peer
count. -/
theorem getNextOrder_eq_neg_one_iff (ps : PeerService) (p : Nat) :
    (getNextOrder ps p).1 = -1 ↔ ps.getNumAllPeers ≤ p := by
  by_cases h : ps.getNumAllPeers ≤ p
  · simp [getNextOrder_of_ge ps p h, h]
  · rw [getNextOrder_of_lt ps p (by omega)]
    constructor
    · intro h1
      have h2 : (p : Int) = -1 := h1
      omega
    · intro h1; exact absurd h1 h

/-! ### The branches of `processBlock` -/

/-- The signed block has one entry more than the received block. -/
theorem createSignedBlock_length (c : Collaborators) (t : Nat) (block : Block)
    (merkleRoot : String) :
    (createSignedBlock c t block merkleRoot).header.peer_signature.length =
      block.header.peer_signature.length + 1 := by
  simp [createSignedBlock]

/-- The signed block is leader-originated exactly when the received block carried no
signature. -/
theorem isLeader_createSignedBlock (c : Collaborators) (t : Nat) (block : Block)
    (merkleRoot : String) :
    isLeader (createSignedBlock c t block merkleRoot) = true ↔
      block.header.peer_signature = [] := by
  simp [isLeader, createSignedBlock_length, List.length_eq_zero]

/-- REJECT: validation fails. -/
theorem processBlock_reject (c : Collaborators) (ps : PeerService) (t : Nat)
    (block : Block) (p : Nat) (hv : c.validate block = false) :
    processBlock c ps t block p =
      ([Effect.logInfo "Stateful validation failed."], p) := by
  simp [processBlock, hv]

/-- BROADCAST: the signed block is leader-originated. -/
theorem processBlock_broadCast (c : Collaborators) (ps : PeerService) (t : Nat)
    (block : Block) (p : Nat) (hv : c.validate block = true)
    (hl : isLeader (createSignedBlock c t block (appendBlock block)) = true) :
    processBlock c ps t block p =
      ([Effect.broadCast (createSignedBlock c t block (appendBlock block)),
        Effect.setTimeOutCommit (createSignedBlock c t block (appendBlock block))], p) := by
  simp [processBlock, hv, hl]

/-- RELAY: fewer than `2f+1` valid signatures and the chain is not exhausted. -/
theorem processBlock_relay (c : Collaborators) (ps : PeerService) (t : Nat)
    (block : Block) (p : Nat) (hv : c.validate block = true)
    (hl : isLeader (createSignedBlock c t block (appendBlock block)) = false)
    (hn : countValidSignatures c (createSignedBlock c t block (appendBlock block))
      < ps.getNumValidatingPeers)
    (hp : p < ps.getNumAllPeers) :
    processBlock c ps t block p =
      ([Effect.unicast (createSignedBlock c t block (appendBlock block)) p,
        Effect.setTimeOutCommit (createSignedBlock c t block (appendBlock block))],
        p + 1) := by
  have hneg : ¬ ((p : Int) < 0) := by omega
  simp [processBlock, hv, hl, hn, getNextOrder_of_lt ps p hp, hneg]

/-- RELAY with an exhausted chain: only the error is logged. -/
theorem processBlock_exhausted (c : Collaborators) (ps : PeerService) (t : Nat)
    (block : Block) (p : Nat) (hv : c.validate block = true)
    (hl : isLeader (createSignedBlock c t block (appendBlock block)) = false)
    (hn : countValidSignatures c (createSignedBlock c t block (appendBlock block))
      < ps.getNumValidatingPeers)
    (hp : ps.getNumAllPeers ≤ p) :
    processBlock c ps t block p =
      ([Effect.logError "getNextOrder() < 0 in processBlock"], p) := by
  simp [processBlock, hv, hl, hn, getNextOrder_of_ge ps p hp]

/-- COMMIT: exactly `2f+1` valid signatures. -/
theorem processBlock_commit (c : Collaborators) (ps : PeerService) (t : Nat)
    (block : Block) (p : Nat) (hv : c.validate block = true)
    (hl : isLeader (createSignedBlock c t block (appendBlock block)) = false)
    (hn : countValidSignatures c (createSignedBlock c t block (appendBlock block))
      = ps.getNumValidatingPeers) :
    processBlock c ps t block p =
      ([Effect.commit (createSignedBlock c t block (appendBlock block)),
        Effect.setTimeOutCommit (createSignedBlock c t block (appendBlock block))], p) := by
  simp [processBlock, hv, hl, hn]

/-- More than `2f+1` valid signatures: nothing happens. -/
theorem processBlock_over (c : Collaborators) (ps : PeerService) (t : Nat)
    (block : Block) (p : Nat) (hv : c.validate block = true)
    (hl : isLeader (createSignedBlock c t block (appendBlock block)) = false)
    (hn : ps.getNumValidatingPeers
      < countValidSignatures c (createSignedBlock c t block (appendBlock block))) :
    processBlock c ps t block p = ([], p) := by
  have h1 : ¬ (countValidSignatures c (createSignedBlock c t block (appendBlock block))
      < ps.getNumValidatingPeers) := by omega
  have h2 : ¬ (countValidSignatures c (createSignedBlock c t block (appendBlock block))
      = ps.getNumValidatingPeers) := by omega
  simp [processBlock, hv, hl, h1, h2]

/-- A leader-originated block has at most one valid signature, below or at any quorum. -/
theorem count_le_quorum_of_isLeader (c : Collaborators) (ps : PeerService) (block : Block)
    (hl : isLeader block = true) :
    countValidSignatures c block ≤ ps.getNumValidatingPeers := by
  have h1 := countValidSignatures_le_length c block
  have h2 : block.header.peer_signature.length = 1 := by simpa [isLeader] using hl
  unfold PeerService.getNumValidatingPeers
  omega

/-- Every run of `processBlock` takes exactly one of its six paths. -/
theorem processBlock_cases (c : Collaborators) (ps : PeerService) (t : Nat)
    (block : Block) (p : Nat) :
    (c.validate block = false ∧
      processBlock c ps t block p =
        ([Effect.logInfo "Stateful validation failed."], p))
    ∨ (c.validate block = true ∧
      isLeader (createSignedBlock c t block (appendBlock block)) = true ∧
      processBlock c ps t block p =
        ([Effect.broadCast (createSignedBlock c t block (appendBlock block)),
          Effect.setTimeOutCommit (createSignedBlock c t block (appendBlock block))], p))
    ∨ (c.validate block = true ∧
      isLeader (createSignedBlock c t block (appendBlock block)) = false ∧
      countValidSignatures c (createSignedBlock c t block (appendBlock block))
        < ps.getNumValidatingPeers ∧
      p < ps.getNumAllPeers ∧
      processBlock c ps t block p =
        ([Effect.unicast (createSignedBlock c t block (appendBlock block)) p,
          Effect.setTimeOutCommit (createSignedBlock c t block (appendBlock block))],
          p + 1))
    ∨ (c.validate block = true ∧
      isLeader (createSignedBlock c t block (appendBlock block)) = false ∧
      countValidSignatures c (createSignedBlock c t block (appendBlock block))
        < ps.getNumValidatingPeers ∧
      ps.getNumAllPeers ≤ p ∧
      processBlock c ps t block p =
        ([Effect.logError "getNextOrder() < 0 in processBlock"], p))
    ∨ (c.validate block = true ∧
      isLeader (createSignedBlock c t block (appendBlock block)) = false ∧
      countValidSignatures c (createSignedBlock c t block (appendBlock block))
        = ps.getNumValidatingPeers ∧
      processBlock c ps t block p =
        ([Effect.commit (createSignedBlock c t block (appendBlock block)),
          Effect.setTimeOutCommit (createSignedBlock c t block (appendBlock block))], p))
    ∨ (c.validate block = true ∧
      isLeader (createSignedBlock c t block (appendBlock block)) = false ∧
      ps.getNumValidatingPeers
        < countValidSignatures c (createSignedBlock c t block (appendBlock block)) ∧
      processBlock c ps t block p = ([], p)) := by
  cases hv : c.validate block with
  | false => exact Or.inl ⟨rfl, processBlock_reject c ps t block p hv⟩
  | true =>
    cases hl : isLeader (createSignedBlock c t block (appendBlock block)) with
    | true => exact Or.inr (Or.inl ⟨rfl, rfl, processBlock_broadCast c ps t block p hv hl⟩)
    | false =>
      rcases Nat.lt_trichotomy
          (countValidSignatures c (createSignedBlock c t block (appendBlock block)))
          ps.getNumValidatingPeers with hn | hn | hn
      · by_cases hp : p < ps.getNumAllPeers
        · exact Or.inr (Or.inr (Or.inl
            ⟨rfl, rfl, hn, hp, processBlock_relay c ps t block p hv hl hn hp⟩))
        · exact Or.inr (Or.inr (Or.inr (Or.inl
            ⟨rfl, rfl, hn, by omega,
              processBlock_exhausted c ps t block p hv hl hn (by omega)⟩)))
      · exact Or.inr (Or.inr (Or.inr (Or.inr (Or.inl
          ⟨rfl, rfl, hn, processBlock_commit c ps t block p hv hl hn⟩))))
      · exact Or.inr (Or.inr (Or.inr (Or.inr (Or.inr
          ⟨rfl, rfl, hn, processBlock_over c ps t block p hv hl hn⟩))))

/-- C2: `processBlock` sends a COMMIT exactly when validation succeeds, the freshly
signed block is not leader-originated and its valid-signature count equals `2f+1`;
the committed block is the freshly signed one, and with a count above `2f+1` nothing
is sent and no timer is armed. -/
theorem processBlock_commit_iff (c : Collaborators) (ps : PeerService) (t : Nat)
    (block : Block) (p : Nat) :
    ((∃ e ∈ (processBlock c ps t block p).1, e.isCommit = true) ↔
        (c.validate block = true ∧
          isLeader (createSignedBlock c t block (appendBlock block)) = false ∧
          countValidSignatures c (createSignedBlock c t block (appendBlock block))
            = ps.getNumValidatingPeers))
      ∧ (∀ b, Effect.commit b ∈ (processBlock c ps t block p).1 →
          b = createSignedBlock c t block (appendBlock block))
      ∧ (ps.getNumValidatingPeers
            < countValidSignatures c (createSignedBlock c t block (appendBlock block)) →
          (∀ e ∈ (processBlock c ps t block p).1, e.isSend = false ∧ e.isTimer = false)
            ∧ (processBlock c ps t block p).2 = p) := by
  have hle := count_le_quorum_of_isLeader c ps
    (createSignedBlock c t block (appendBlock block))
  rcases processBlock_cases c ps t block p with
    ⟨hv, hr⟩ | ⟨hv, hl, hr⟩ | ⟨hv, hl, hn, hp, hr⟩ | ⟨hv, hl, hn, hp, hr⟩ |
    ⟨hv, hl, hn, hr⟩ | ⟨hv, hl, hn, hr⟩
  · rw [hr]
    simp [hv, Effect.isCommit, Effect.isSend, Effect.isBroadCast, Effect.isUnicast,
      Effect.isTimer]
  · rw [hr]
    have := hle hl
    refine ⟨by simp [hv, hl, Effect.isCommit], by simp, fun h => by omega⟩
  · rw [hr]
    refine ⟨?_, by simp, fun h => by omega⟩
    simp only [List.mem_cons, List.mem_singleton, List.not_mem_nil, or_false]
    constructor
    · rintro ⟨e, rfl | rfl, he⟩ <;> simp [Effect.isCommit] at he
    · rintro ⟨_, _, h⟩; omega
  · rw [hr]
    refine ⟨?_, by simp, fun h => by omega⟩
    simp only [List.mem_singleton]
    constructor
    · rintro ⟨e, rfl, he⟩; simp [Effect.isCommit] at he
    · rintro ⟨_, _, h⟩; omega
  · rw [hr]
    refine ⟨?_, by simp, fun h => by omega⟩
    constructor
    · intro _; exact ⟨hv, hl, hn⟩
    · intro _; exact ⟨_, List.mem_cons_self _ _, rfl⟩
  · rw [hr]
    refine ⟨?_, by simp, fun _ => by simp⟩
    constructor
    · rintro ⟨e, he, _⟩; simp at he
    · rintro ⟨_, _, h⟩; omega

/-- C4: `processBlock` unicasts exactly when validation succeeds, the freshly signed
block is not leader-originated, its valid-signature count is below `2f+1` and
`getNextOrder` does not report exhaustion; it then unicasts the freshly signed block to
the position `getNextOrder` returned and arms one timer, with no broadcast and no
commit; on exhaustion nothing is sent and no timer is armed. -/
theorem processBlock_unicast_iff (c : Collaborators) (ps : PeerService) (t : Nat)
    (block : Block) (p : Nat) :
    ((∃ e ∈ (processBlock c ps t block p).1, e.isUnicast = true) ↔
        (c.validate block = true ∧
          isLeader (createSignedBlock c t block (appendBlock block)) = false ∧
          countValidSignatures c (createSignedBlock c t block (appendBlock block))
            < ps.getNumValidatingPeers ∧
          (getNextOrder ps p).1 ≠ -1))
      ∧ ((∃ e ∈ (processBlock c ps t block p).1, e.isUnicast = true) →
          processBlock c ps t block p =
            ([Effect.unicast (createSignedBlock c t block (appendBlock block))
                (getNextOrder ps p).1.toNat,
              Effect.setTimeOutCommit (createSignedBlock c t block (appendBlock block))],
              (getNextOrder ps p).2))
      ∧ (c.validate block = true →
          isLeader (createSignedBlock c t block (appendBlock block)) = false →
          countValidSignatures c (createSignedBlock c t block (appendBlock block))
            < ps.getNumValidatingPeers →
          (getNextOrder ps p).1 = -1 →
          (∀ e ∈ (processBlock c ps t block p).1, e.isSend = false ∧ e.isTimer = false)
            ∧ (processBlock c ps t block p).2 = p) := by
  have hex := getNextOrder_eq_neg_one_iff ps p
  rcases processBlock_cases c ps t block p with
    ⟨hv, hr⟩ | ⟨hv, hl, hr⟩ | ⟨hv, hl, hn, hp, hr⟩ | ⟨hv, hl, hn, hp, hr⟩ |
    ⟨hv, hl, hn, hr⟩ | ⟨hv, hl, hn, hr⟩
  · rw [hr]
    simp [hv, Effect.isUnicast]
  · rw [hr]
    simp [hv, hl, Effect.isUnicast]
  · rw [hr]
    have hne : (getNextOrder ps p).1 ≠ -1 := fun h => by
      have := hex.mp h; omega
    refine ⟨?_, ?_, fun _ _ _ h => absurd h hne⟩
    · constructor
      · intro _; exact ⟨hv, hl, hn, hne⟩
      · intro _; exact ⟨_, List.mem_cons_self _ _, rfl⟩
    · intro _
      rw [getNextOrder_of_lt ps p hp]
      simp
  · rw [hr]
    have heq : (getNextOrder ps p).1 = -1 := hex.mpr hp
    refine ⟨?_, ?_, fun _ _ _ _ => ?_⟩
    · simp [heq, Effect.isUnicast]
    · simp [Effect.isUnicast]
    · simp [Effect.isSend, Effect.isBroadCast, Effect.isUnicast, Effect.isCommit,
        Effect.isTimer]
  · rw [hr]
    refine ⟨?_, ?_, fun _ _ h _ => by omega⟩
    · constructor
      · rintro ⟨e, he, hu⟩
        simp only [List.mem_cons, List.mem_singleton, List.not_mem_nil, or_false] at he
        rcases he with rfl | rfl <;> simp [Effect.isUnicast] at hu
      · rintro ⟨_, _, h, _⟩; omega
    · rintro ⟨e, he, hu⟩
      simp only [List.mem_cons, List.mem_singleton, List.not_mem_nil, or_false] at he
      rcases he with rfl | rfl <;> simp [Effect.isUnicast] at hu
  · rw [hr]
    refine ⟨?_, ?_, fun _ _ h _ => by omega⟩
    · constructor
      · rintro ⟨e, he, _⟩; simp at he
      · rintro ⟨_, _, h, _⟩; omega
    · rintro ⟨e, he, _⟩; simp at he

/-- C5: a block that passes validation and arrives with no signature is signed (one
entry), broadcast, and one timer is armed; no unicast, no commit, and the stored proxy
tail is untouched.  Conversely a broadcast happens only for such blocks. -/
theorem processBlock_broadCast_iff (c : Collaborators) (ps : PeerService) (t : Nat)
    (block : Block) (p : Nat) :
    (c.validate block = true → block.header.peer_signature = [] →
        (createSignedBlock c t block (appendBlock block)).header.peer_signature.length = 1
        ∧ processBlock c ps t block p =
            ([Effect.broadCast (createSignedBlock c t block (appendBlock block)),
              Effect.setTimeOutCommit (createSignedBlock c t block (appendBlock block))],
              p))
      ∧ ((∃ e ∈ (processBlock c ps t block p).1, e.isBroadCast = true) →
          c.validate block = true ∧ block.header.peer_signature = []) := by
  constructor
  · intro hv hs
    refine ⟨by simp [createSignedBlock_length, hs], ?_⟩
    exact processBlock_broadCast c ps t block p hv
      ((isLeader_createSignedBlock c t block _).mpr hs)
  · rintro ⟨e, he, hb⟩
    rcases processBlock_cases c ps t block p with
      ⟨hv, hr⟩ | ⟨hv, hl, hr⟩ | ⟨hv, hl, hn, hp, hr⟩ | ⟨hv, hl, hn, hp, hr⟩ |
      ⟨hv, hl, hn, hr⟩ | ⟨hv, hl, hn, hr⟩
    · rw [hr] at he
      simp only [List.mem_singleton] at he
      subst he; simp [Effect.isBroadCast] at hb
    · exact ⟨hv, (isLeader_createSignedBlock c t block _).mp hl⟩
    · rw [hr] at he
      simp only [List.mem_cons, List.mem_singleton, List.not_mem_nil, or_false] at he
      rcases he with rfl | rfl <;> simp [Effect.isBroadCast] at hb
    · rw [hr] at he
      simp only [List.mem_singleton] at he
      subst he; simp [Effect.isBroadCast] at hb
    · rw [hr] at he
      simp only [List.mem_cons, List.mem_singleton, List.not_mem_nil, or_false] at he
      rcases he with rfl | rfl <;> simp [Effect.isBroadCast] at hb
    · rw [hr] at he
      simp at he

/-- C6: when stateful validation fails `processBlock` only logs the failure: no send,
no timer, no signed block, and the stored proxy tail is unchanged. -/
theorem processBlock_invalid_no_effect (c : Collaborators) (ps : PeerService) (t : Nat)
    (block : Block) (p : Nat) (hv : c.validate block = false) :
    (processBlock c ps t block p).1 = [Effect.logInfo "Stateful validation failed."]
      ∧ (∀ e ∈ (processBlock c ps t block p).1, e.isSend = false ∧ e.isTimer = false)
      ∧ (processBlock c ps t block p).2 = p := by
  rw [processBlock_reject c ps t block p hv]
  simp [Effect.isSend, Effect.isBroadCast, Effect.isUnicast, Effect.isCommit,
    Effect.isTimer]

/-- Witness for C2: with quorum `1`, a block arriving with two valid signatures has a
count above the quorum, and nothing is sent. -/
theorem processBlock_commit_iff_witness :
    solo.getNumValidatingPeers
        < countValidSignatures toy (createSignedBlock toy 7 blockP0P2 (appendBlock blockP0P2))
      ∧ ((∀ e ∈ (processBlock toy solo 7 blockP0P2 0).1,
            e.isSend = false ∧ e.isTimer = false)
          ∧ (processBlock toy solo 7 blockP0P2 0).2 = 0) :=
  ⟨by decide, (processBlock_commit_iff toy solo 7 blockP0P2 0).2.2 (by decide)⟩

/-- Witness for C4: scenario S1 (relay to position 2), and the same block with the
chain exhausted. -/
theorem processBlock_unicast_iff_witness :
    processBlock toy scenario 7 blockP0 2 =
        ([Effect.unicast (createSignedBlock toy 7 blockP0 (appendBlock blockP0)) 2,
          Effect.setTimeOutCommit (createSignedBlock toy 7 blockP0 (appendBlock blockP0))],
          3)
      ∧ ((∀ e ∈ (processBlock toy scenario 7 blockP0 4).1,
            e.isSend = false ∧ e.isTimer = false)
          ∧ (processBlock toy scenario 7 blockP0 4).2 = 4) :=
  ⟨(processBlock_unicast_iff toy scenario 7 blockP0 2).2.1 (by decide),
   (processBlock_unicast_iff toy scenario 7 blockP0 4).2.2
      (by decide) (by decide) (by decide) (by decide)⟩

/-- Witness for C5: scenario S7, an unsigned block is broadcast. -/
theorem processBlock_broadCast_iff_witness :
    (toy.validate blockUnsigned = true ∧ blockUnsigned.header.peer_signature = [])
      ∧ ((createSignedBlock toy 7 blockUnsigned
            (appendBlock blockUnsigned)).header.peer_signature.length = 1
          ∧ processBlock toy scenario 7 blockUnsigned 2 =
            ([Effect.broadCast (createSignedBlock toy 7 blockUnsigned
                (appendBlock blockUnsigned)),
              Effect.setTimeOutCommit (createSignedBlock toy 7 blockUnsigned
                (appendBlock blockUnsigned))], 2))
      ∧ (toy.validate blockUnsigned = true ∧ blockUnsigned.header.peer_signature = []) :=
  ⟨⟨by decide, by decide⟩,
   (processBlock_broadCast_iff toy scenario 7 blockUnsigned 2).1 (by decide) (by decide),
   (processBlock_broadCast_iff toy scenario 7 blockUnsigned 2).2 (by decide)⟩

/-- Witness for C6: a block with an empty body fails validation under `toy`. -/
theorem processBlock_invalid_no_effect_witness :
    toy.validate blockRejected = false
      ∧ (processBlock toy scenario 7 blockRejected 2).1
          = [Effect.logInfo "Stateful validation failed."]
      ∧ (∀ e ∈ (processBlock toy scenario 7 blockRejected 2).1,
            e.isSend = false ∧ e.isTimer = false)
      ∧ (processBlock toy scenario 7 blockRejected 2).2 = 2 :=
  ⟨by decide, processBlock_invalid_no_effect toy scenario 7 blockRejected 2 (by decide)⟩

/-! ### The local signature -/

/-- Verification on the signed block reads the same body as on the received block. -/
theorem verifies_createSignedBlock (c : Collaborators) (t : Nat) (block : Block)
    (merkleRoot : String) :
    verifies c (createSignedBlock c t block merkleRoot) = verifies c block := by
  funext sig
  simp [verifies, createSignedBlock]

/-- Counting after signing, in terms of whether the appended entry verifies. -/
theorem countValidSignatures_createSignedBlock (c : Collaborators) (t : Nat)
    (block : Block) (merkleRoot : String)
    (hfresh : ∀ sig ∈ block.header.peer_signature, sig.pubkey ≠ "pk") :
    countValidSignatures c (createSignedBlock c t block merkleRoot) =
      countValidSignatures c block +
        (if c.verify (c.sign merkleRoot "pk" "sk")
            (c.sha3_256_hex (c.serializeAsString block.body)) "pk" = true
          then 1 else 0) := by
  have hnot : "pk" ∉ ((block.header.peer_signature.filter (verifies c block)).map
      Signature.pubkey).toFinset := by
    simp only [List.mem_toFinset, List.mem_map, List.mem_filter, not_exists, not_and]
    intro sig hsig h
    exact hfresh sig hsig.1 h
  unfold countValidSignatures
  rw [countLoop_eq, countLoop_eq, verifies_createSignedBlock]
  simp only [List.toFinset_nil, Finset.sdiff_empty, zero_add]
  have hsigs : (createSignedBlock c t block merkleRoot).header.peer_signature =
      block.header.peer_signature ++
        [{ pubkey := "pk", signature := c.sign merkleRoot "pk" "sk" }] := rfl
  rw [hsigs, List.filter_append]
  by_cases hv : c.verify (c.sign merkleRoot "pk" "sk")
      (c.sha3_256_hex (c.serializeAsString block.body)) "pk" = true
  · have hv2 : verifies c block
        { pubkey := "pk", signature := c.sign merkleRoot "pk" "sk" } = true := hv
    rw [if_pos hv]
    simp only [List.filter_cons, hv2, if_true, List.filter_nil, List.map_append,
      List.map_cons, List.map_nil, List.toFinset_append, List.toFinset_cons,
      List.toFinset_nil]
    rw [Finset.union_comm, Finset.insert_union, Finset.empty_union,
      Finset.card_insert_of_not_mem hnot]
  · have hv2 : ¬ (verifies c block
        { pubkey := "pk", signature := c.sign merkleRoot "pk" "sk" } = true) := hv
    rw [if_neg hv]
    simp [List.filter_cons, hv2]

/-- C3 (what the code does): the local signature is made over the string returned by
`appendBlock`, which is empty, while counting verifies against `sha3_256_hex` of the
body.  In any scheme where `verify (sign m pk sk) m' pk` holds exactly when `m' = m`,
and with a hash that is never the empty string, signing leaves the count unchanged. -/
theorem own_signature_not_counted (c : Collaborators) (t : Nat) (block : Block)
    (hscheme : ∀ m m' pk sk, c.verify (c.sign m pk sk) m' pk = true ↔ m' = m)
    (hfresh : ∀ sig ∈ block.header.peer_signature, sig.pubkey ≠ "pk")
    (hhash : c.sha3_256_hex (c.serializeAsString block.body) ≠ "") :
    countValidSignatures c (createSignedBlock c t block (appendBlock block)) =
      countValidSignatures c block := by
  rw [countValidSignatures_createSignedBlock c t block _ hfresh]
  have hno : ¬ (c.verify (c.sign (appendBlock block) "pk" "sk")
      (c.sha3_256_hex (c.serializeAsString block.body)) "pk" = true) := by
    intro h
    exact hhash ((hscheme _ _ _ _).mp h)
  rw [if_neg hno]
  rfl

/-- The toy scheme verifies a signature exactly on the message that was signed. -/
theorem toy_scheme (m m' pk sk : String) :
    toy.verify (toy.sign m pk sk) m' pk = true ↔ m' = m := by
  show (m == m') = true ↔ m' = m
  rw [beq_iff_eq]
  exact eq_comm

/-- The toy hash never returns the empty string. -/
theorem toy_hash_ne_empty (m : String) : toy.sha3_256_hex m ≠ "" := by
  intro h
  have h2 : (toy.sha3_256_hex m).length = 0 := by rw [h]; rfl
  simp only [toy, String.length_append] at h2
  have h3 : ("h" : String).length = 1 := by decide
  omega

/-- C3 at a concrete block: one valid signature from `P0`, no entry of the local key;
after signing the count is still 1, not 2. -/
theorem own_signature_not_counted_witness :
    (∀ m m' pk sk, toy.verify (toy.sign m pk sk) m' pk = true ↔ m' = m)
      ∧ (∀ sig ∈ blockP0.header.peer_signature, sig.pubkey ≠ "pk")
      ∧ countValidSignatures toy blockP0 = 1
      ∧ countValidSignatures toy (createSignedBlock toy 7 blockP0 (appendBlock blockP0)) =
          countValidSignatures toy blockP0 :=
  ⟨toy_scheme, by decide, by decide,
   own_signature_not_counted toy 7 blockP0 toy_scheme (by decide)
     (toy_hash_ne_empty _)⟩

/-! ### `panic` and the fallback chain -/

/-- Below the peer count `panic` unicasts to the stored position and re-arms the timer. -/
theorem panic_of_lt (ps : PeerService) (block : Block) (p : Nat)
    (h : p < ps.getNumAllPeers) :
    panic ps block p =
      ([Effect.unicast block p, Effect.setTimeOutCommit block], p + 1) := by
  have hneg : ¬ ((p : Int) < 0) := by omega
  simp [panic, getNextOrder_of_lt ps p h, hneg]

/-- At or above the peer count `panic` only logs the denial. -/
theorem panic_of_ge (ps : PeerService) (block : Block) (p : Nat)
    (h : ps.getNumAllPeers ≤ p) :
    panic ps block p = ([Effect.logInfo "否認"], p) := by
  simp [panic, getNextOrder_of_ge ps p h]

/-- C7 fails as stated: with `N = 4` and stored value 2 the code returns 2 and stores 3,
where the pre-increment picker returns 3 and stores 3; with stored value `N - 1 = 3`
the code returns 3 (and `panic` unicasts to 3), where the pre-increment picker reports
exhaustion. -/
theorem getNextOrder_ne_specNext :
    getNextOrder scenario 2 = (2, 3) ∧ specNext scenario 2 = (3, 3)
      ∧ getNextOrder scenario 3 = (3, 4) ∧ specNext scenario 3 = (-1, 3)
      ∧ panic scenario blockP0 3 =
          ([Effect.unicast blockP0 3, Effect.setTimeOutCommit blockP0], 4) := by
  decide

/-- C7 as amended: `getNextOrder` is the post-increment picker.  If the stored value
`p` is at least `N` it returns `-1` and stores nothing; otherwise it returns `p` itself
and stores `p + 1`.  Exhaustion is thus reported at `p = N`, where `panic` sends no
unicast and arms no timer, while at `p = N - 1` position `N - 1` is still handed out. -/
theorem getNextOrder_post_increment (ps : PeerService) (block : Block) (p : Nat) :
    (ps.getNumAllPeers ≤ p →
        getNextOrder ps p = (-1, p) ∧ panic ps block p = ([Effect.logInfo "否認"], p))
      ∧ (p < ps.getNumAllPeers →
        getNextOrder ps p = ((p : Int), p + 1)
          ∧ panic ps block p =
              ([Effect.unicast block p, Effect.setTimeOutCommit block], p + 1)) :=
  ⟨fun h => ⟨getNextOrder_of_ge ps p h, panic_of_ge ps block p h⟩,
   fun h => ⟨getNextOrder_of_lt ps p h, panic_of_lt ps block p h⟩⟩

/-- Witness for C7: `N = 4`, stored values 4 (exhausted) and 3 (last position). -/
theorem getNextOrder_post_increment_witness :
    (getNextOrder scenario 4 = (-1, 4)
        ∧ panic scenario blockP0 4 = ([Effect.logInfo "否認"], 4))
      ∧ (getNextOrder scenario 3 = (((3 : Nat) : Int), 3 + 1)
        ∧ panic scenario blockP0 3 =
            ([Effect.unicast blockP0 3, Effect.setTimeOutCommit blockP0], 3 + 1)) :=
  ⟨(getNextOrder_post_increment scenario blockP0 4).1 (by decide),
   (getNextOrder_post_increment scenario blockP0 3).2 (by decide)⟩

/-- The stored proxy tail never decreases under `panic`. -/
theorem le_panic_snd (ps : PeerService) (block : Block) (p : Nat) :
    p ≤ (panic ps block p).2 := by
  by_cases h : p < ps.getNumAllPeers
  · rw [panic_of_lt ps block p h]; exact Nat.le_succ p
  · rw [panic_of_ge ps block p (by omega)]

/-- The stored proxy tail never decreases under `processBlock`. -/
theorem le_processBlock_snd (c : Collaborators) (ps : PeerService) (t : Nat)
    (block : Block) (p : Nat) :
    p ≤ (processBlock c ps t block p).2 := by
  rcases processBlock_cases c ps t block p with
    ⟨_, hr⟩ | ⟨_, _, hr⟩ | ⟨_, _, _, _, hr⟩ | ⟨_, _, _, _, hr⟩ |
    ⟨_, _, _, hr⟩ | ⟨_, _, _, hr⟩ <;> simp [hr]

/-- Exact account of `k` successive panics from stored value `p`: the number of
unicasts, the number of timers, and the stored value afterwards. -/
theorem panicTimes_account (ps : PeerService) (block : Block) :
    ∀ (k p : Nat),
      (panicTimes ps block k p).1.countP Effect.isUnicast = min k (ps.getNumAllPeers - p)
        ∧ (panicTimes ps block k p).1.countP Effect.isTimer = min k (ps.getNumAllPeers - p)
        ∧ (panicTimes ps block k p).2 = p + min k (ps.getNumAllPeers - p) := by
  intro k
  induction k with
  | zero => intro p; simp [panicTimes]
  | succ k ih =>
    intro p
    by_cases h : p < ps.getNumAllPeers
    · obtain ⟨h1, h2, h3⟩ := ih (p + 1)
      simp only [panicTimes, panic_of_lt ps block p h, List.countP_append, h1, h2, h3]
      simp only [List.countP_cons, List.countP_nil, Effect.isUnicast, Effect.isTimer]
      refine ⟨?_, ?_, ?_⟩ <;> (try simp) <;> omega
    · have hge : ps.getNumAllPeers ≤ p := by omega
      obtain ⟨h1, h2, h3⟩ := ih p
      simp only [panicTimes, panic_of_ge ps block p hge, List.countP_append, h1, h2, h3]
      simp only [List.countP_cons, List.countP_nil, Effect.isUnicast, Effect.isTimer]
      refine ⟨?_, ?_, ?_⟩ <;> (try simp) <;> omega

/-- C8 fails as stated: with `N = 4`, `f = 1` (so `N ≥ 3f + 1`) three panics from the
startup state perform two unicasts, to positions 2 and 3, more than `N - (2f+1) = 1`. -/
theorem panic_chain_exceeds_spec_bound :
    scenario.getNumAllPeers ≥ 3 * scenario.getMaxFaulty + 1
      ∧ initialProxyTail scenario = 2 * scenario.getMaxFaulty
      ∧ (panicTimes scenario blockP0 3 (initialProxyTail scenario)).1 =
          [Effect.unicast blockP0 2, Effect.setTimeOutCommit blockP0,
           Effect.unicast blockP0 3, Effect.setTimeOutCommit blockP0,
           Effect.logInfo "否認"]
      ∧ ¬ ((panicTimes scenario blockP0 3 (initialProxyTail scenario)).1.countP
            Effect.isUnicast
          ≤ scenario.getNumAllPeers - (2 * scenario.getMaxFaulty + 1)) := by
  decide

/-- C8 as amended: from any stored value `p` at or above the startup value `2f` (every
reachable state is), `k` successive panics perform exactly `min k (N - p)` unicasts,
hence at most `N - 2f` in total, and arm exactly as many timers; they leave the stored
value at `p + min k (N - p)`, so after `N - p` panics `getNextOrder` reports exhaustion,
and from an exhausted state every further panic, on any block, only logs the denial: no
unicast, no timer, stored value unchanged. -/
theorem panic_chain_terminates (ps : PeerService) (block : Block) (k p : Nat)
    (hreach : initialProxyTail ps ≤ p) :
    (panicTimes ps block k p).1.countP Effect.isUnicast = min k (ps.getNumAllPeers - p)
      ∧ (panicTimes ps block k p).1.countP Effect.isUnicast
        ≤ ps.getNumAllPeers - 2 * ps.getMaxFaulty
      ∧ (panicTimes ps block k p).1.countP Effect.isTimer
        = (panicTimes ps block k p).1.countP Effect.isUnicast
      ∧ (panicTimes ps block k p).2 = p + min k (ps.getNumAllPeers - p)
      ∧ (ps.getNumAllPeers - p ≤ k →
          ps.getNumAllPeers ≤ (panicTimes ps block k p).2
            ∧ getNextOrder ps (panicTimes ps block k p).2
                = (-1, (panicTimes ps block k p).2))
      ∧ (∀ (later : Block) (p' : Nat), ps.getNumAllPeers ≤ p' →
          panic ps later p' = ([Effect.logInfo "否認"], p')) := by
  obtain ⟨h1, h2, h3⟩ := panicTimes_account ps block k p
  have hinit : initialProxyTail ps = 2 * ps.getMaxFaulty := by
    simp [initialProxyTail, PeerService.getNumValidatingPeers]; omega
  refine ⟨h1, ?_, ?_, h3, ?_, fun later p' h => panic_of_ge ps later p' h⟩
  · rw [h1]; omega
  · rw [h1, h2]
  · intro hk
    have hge : ps.getNumAllPeers ≤ (panicTimes ps block k p).2 := by rw [h3]; omega
    exact ⟨hge, getNextOrder_of_ge ps _ hge⟩

/-- Witness for C8: `N = 4`, `f = 1`, three panics from the startup state: two unicasts,
to positions 2 and 3, then exhaustion. -/
theorem panic_chain_terminates_witness :
    initialProxyTail scenario ≤ 2
      ∧ scenario.getNumAllPeers - 2 ≤ 3
      ∧ (panicTimes scenario blockP0 3 2).1.countP Effect.isUnicast = 2
      ∧ (panicTimes scenario blockP0 3 2).1.countP Effect.isUnicast
          = min 3 (scenario.getNumAllPeers - 2)
      ∧ (scenario.getNumAllPeers ≤ (panicTimes scenario blockP0 3 2).2
          ∧ getNextOrder scenario (panicTimes scenario blockP0 3 2).2
              = (-1, (panicTimes scenario blockP0 3 2).2)) :=
  ⟨by decide, by decide, by decide,
   (panic_chain_terminates scenario blockP0 3 2 (by decide)).1,
   (panic_chain_terminates scenario blockP0 3 2 (by decide)).2.2.2.2.1 (by decide)⟩

/-! ### Scope of the proxy tail -/

/-- When `panic` unicasts, it did so to the stored position and advanced it. -/
theorem panic_eq_of_unicast (ps : PeerService) (block : Block) (p : Nat)
    (h : ∃ e ∈ (panic ps block p).1, e.isUnicast = true) :
    panic ps block p = ([Effect.unicast block p, Effect.setTimeOutCommit block], p + 1) := by
  by_cases hp : p < ps.getNumAllPeers
  · exact panic_of_lt ps block p hp
  · exfalso
    rw [panic_of_ge ps block p (by omega)] at h
    obtain ⟨e, he, hu⟩ := h
    simp only [List.mem_singleton] at he
    subst he
    simp [Effect.isUnicast] at hu

/-- When `processBlock` unicasts, it took the RELAY path from the stored position. -/
theorem processBlock_eq_of_unicast (c : Collaborators) (ps : PeerService) (t : Nat)
    (block : Block) (p : Nat)
    (h : ∃ e ∈ (processBlock c ps t block p).1, e.isUnicast = true) :
    processBlock c ps t block p =
      ([Effect.unicast (createSignedBlock c t block (appendBlock block)) p,
        Effect.setTimeOutCommit (createSignedBlock c t block (appendBlock block))],
        p + 1) := by
  obtain ⟨e, he, hu⟩ := h
  rcases processBlock_cases c ps t block p with
    ⟨_, hr⟩ | ⟨_, _, hr⟩ | ⟨_, _, _, _, hr⟩ | ⟨_, _, _, _, hr⟩ |
    ⟨_, _, _, hr⟩ | ⟨_, _, _, hr⟩
  · rw [hr] at he
    simp only [List.mem_singleton] at he
    subst he; simp [Effect.isUnicast] at hu
  · rw [hr] at he
    simp only [List.mem_cons, List.mem_singleton, List.not_mem_nil, or_false] at he
    rcases he with rfl | rfl <;> simp [Effect.isUnicast] at hu
  · exact hr
  · rw [hr] at he
    simp only [List.mem_singleton] at he
    subst he; simp [Effect.isUnicast] at hu
  · rw [hr] at he
    simp only [List.mem_cons, List.mem_singleton, List.not_mem_nil, or_false] at he
    rcases he with rfl | rfl <;> simp [Effect.isUnicast] at hu
  · rw [hr] at he
    simp at he

/-- With peer counts for which the chain is not exhausted (here `f = 1`, `N = 4`, not
the constants of the source) the shared counter is observable: the second block is sent
to position 2 when handled first, and to position 3 when the first block was relayed or
had panicked beforehand. -/
theorem proxy_tail_not_per_block :
    blockP0 ≠ blockP3
      ∧ (panic scenario blockP3 (initialProxyTail scenario)).1 =
          [Effect.unicast blockP3 2, Effect.setTimeOutCommit blockP3]
      ∧ (panic scenario blockP3 (panic scenario blockP0 (initialProxyTail scenario)).2).1 =
          [Effect.unicast blockP3 3, Effect.setTimeOutCommit blockP3]
      ∧ (processBlock toy scenario 7 blockP3 (initialProxyTail scenario)).1 =
          [Effect.unicast (createSignedBlock toy 7 blockP3 (appendBlock blockP3)) 2,
           Effect.setTimeOutCommit (createSignedBlock toy 7 blockP3 (appendBlock blockP3))]
      ∧ (processBlock toy scenario 7 blockP3
            (processBlock toy scenario 7 blockP0 (initialProxyTail scenario)).2).1 =
          [Effect.unicast (createSignedBlock toy 7 blockP3 (appendBlock blockP3)) 3,
           Effect.setTimeOutCommit
             (createSignedBlock toy 7 blockP3 (appendBlock blockP3))] := by
  decide

/-- The stored proxy tail is one counter for all blocks, whatever the peer counts:
whenever a block `B` is relayed, by `panic` or by `processBlock`, the position used is
the stored value `p` whatever the block, and every relay or panic unicast of another
block `A` raises the stored value by exactly one. -/
theorem proxy_tail_process_wide (c : Collaborators) (ps : PeerService) (t : Nat)
    (A B : Block) (p : Nat) :
    ((∃ e ∈ (panic ps B p).1, e.isUnicast = true) →
        (panic ps B p).1 = [Effect.unicast B p, Effect.setTimeOutCommit B])
      ∧ ((∃ e ∈ (processBlock c ps t B p).1, e.isUnicast = true) →
        (processBlock c ps t B p).1 =
          [Effect.unicast (createSignedBlock c t B (appendBlock B)) p,
           Effect.setTimeOutCommit (createSignedBlock c t B (appendBlock B))])
      ∧ ((∃ e ∈ (panic ps A p).1, e.isUnicast = true) → (panic ps A p).2 = p + 1)
      ∧ ((∃ e ∈ (processBlock c ps t A p).1, e.isUnicast = true) →
        (processBlock c ps t A p).2 = p + 1) := by
  refine ⟨fun h => ?_, fun h => ?_, fun h => ?_, fun h => ?_⟩
  · rw [panic_eq_of_unicast ps B p h]
  · rw [processBlock_eq_of_unicast c ps t B p h]
  · rw [panic_eq_of_unicast ps A p h]
  · rw [processBlock_eq_of_unicast c ps t A p h]

/-- The shared counter at `N = 4`, `f = 1`, blocks `blockP0` and `blockP3`, stored
value 2. -/
theorem proxy_tail_process_wide_witness :
    (panic scenario blockP3 2).1 =
        [Effect.unicast blockP3 2, Effect.setTimeOutCommit blockP3]
      ∧ (processBlock toy scenario 7 blockP3 2).1 =
        [Effect.unicast (createSignedBlock toy 7 blockP3 (appendBlock blockP3)) 2,
         Effect.setTimeOutCommit (createSignedBlock toy 7 blockP3 (appendBlock blockP3))]
      ∧ (panic scenario blockP0 2).2 = 2 + 1
      ∧ (processBlock toy scenario 7 blockP0 2).2 = 2 + 1 :=
  ⟨(proxy_tail_process_wide toy scenario 7 blockP0 blockP3 2).1 (by decide),
   (proxy_tail_process_wide toy scenario 7 blockP0 blockP3 2).2.1 (by decide),
   (proxy_tail_process_wide toy scenario 7 blockP0 blockP3 2).2.2.1 (by decide),
   (proxy_tail_process_wide toy scenario 7 blockP0 blockP3 2).2.2.2 (by decide)⟩

/-! ### Quorum parameters -/

/-- C10 on the constants as written: `getNumValidatingPeers() = 2 * getMaxFaulty() + 1`
holds, but `getMaxFaulty()` is 3 where `(getNumAllPeers() - 1) / 3` is 1, and
`getNumAllPeers() = 4` is below `3 * getMaxFaulty() + 1 = 10`. -/
theorem hardcoded_quorum_inconsistent :
    hardcoded.getNumValidatingPeers = 2 * hardcoded.getMaxFaulty + 1
      ∧ hardcoded.getMaxFaulty = 3
      ∧ (hardcoded.getNumAllPeers - 1) / 3 = 1
      ∧ hardcoded.getMaxFaulty ≠ (hardcoded.getNumAllPeers - 1) / 3
      ∧ ¬ (hardcoded.getNumAllPeers ≥ 3 * hardcoded.getMaxFaulty + 1)
      ∧ hardcoded.getNumAllPeers < hardcoded.getNumValidatingPeers := by
  decide

/-! ### Leader marker and the algebra of signature counting -/

/-- The count as the cardinality of the set of public keys with a verifying entry. -/
theorem countValidSignatures_eq_card (c : Collaborators) (block : Block) :
    countValidSignatures c block =
      ((block.header.peer_signature.filter (verifies c block)).map
        Signature.pubkey).toFinset.card := by
  unfold countValidSignatures
  rw [countLoop_eq]
  simp

/-- Appending an entry does not change which entries verify. -/
theorem verifies_appendSignature (c : Collaborators) (block : Block) (s : Signature) :
    verifies c (appendSignature block s) = verifies c block := by
  funext sig
  simp [verifies, appendSignature]

/-- Inserting an entry does not change which entries verify. -/
theorem verifies_insertSignature (c : Collaborators) (block : Block) (i : Nat)
    (s : Signature) :
    verifies c (insertSignature block i s) = verifies c block := by
  funext sig
  simp [verifies, insertSignature]

/-- Counting after appending one entry: the count rises by one exactly when the entry
verifies and no earlier entry of the same public key does. -/
theorem countValidSignatures_appendSignature (c : Collaborators) (block : Block)
    (s : Signature) :
    countValidSignatures c (appendSignature block s) =
      countValidSignatures c block +
        (if verifies c block s = true ∧
            ¬ (∃ sig ∈ block.header.peer_signature,
                sig.pubkey = s.pubkey ∧ verifies c block sig = true)
          then 1 else 0) := by
  rw [countValidSignatures_eq_card, countValidSignatures_eq_card, verifies_appendSignature]
  have hsigs : (appendSignature block s).header.peer_signature =
      block.header.peer_signature ++ [s] := rfl
  rw [hsigs, List.filter_append]
  have hmem : s.pubkey ∈ ((block.header.peer_signature.filter (verifies c block)).map
      Signature.pubkey).toFinset ↔
      ∃ sig ∈ block.header.peer_signature,
        sig.pubkey = s.pubkey ∧ verifies c block sig = true := by
    simp only [List.mem_toFinset, List.mem_map, List.mem_filter]
    constructor
    · rintro ⟨sig, ⟨h1, h2⟩, h3⟩; exact ⟨sig, h1, h3, h2⟩
    · rintro ⟨sig, h1, h3, h2⟩; exact ⟨sig, ⟨h1, h2⟩, h3⟩
  by_cases hv : verifies c block s = true
  · simp only [List.filter_cons, hv, if_true, List.filter_nil, List.map_append,
      List.map_cons, List.map_nil, List.toFinset_append, List.toFinset_cons,
      List.toFinset_nil]
    rw [Finset.union_comm, Finset.insert_union, Finset.empty_union]
    by_cases hdup : ∃ sig ∈ block.header.peer_signature,
        sig.pubkey = s.pubkey ∧ verifies c block sig = true
    · rw [Finset.insert_eq_of_mem (hmem.mpr hdup)]
      simp [hdup]
    · rw [Finset.card_insert_of_not_mem (fun h => hdup (hmem.mp h))]
      simp [hdup]
  · simp [List.filter_cons, hv]

/-- C11 fails as stated: a block whose single entry is invalid is treated as
leader-originated although its count is 0, and a block with one valid and one invalid
entry has count 1 but is not treated as leader-originated. -/
theorem isLeader_ne_one_valid_signature :
    (isLeader blockBadP0 = true ∧ countValidSignatures toy blockBadP0 = 0)
      ∧ (isLeader blockP0BadP2 = false ∧ countValidSignatures toy blockP0BadP2 = 1) := by
  decide

/-- C11 as amended: `isLeader` returns true exactly when the block carries exactly one
signature entry, whether or not that entry verifies; such a block has a valid-signature
count of at most 1. -/
theorem isLeader_iff_one_entry (c : Collaborators) (block : Block) :
    (isLeader block = true ↔ block.header.peer_signature.length = 1)
      ∧ (isLeader block = true → countValidSignatures c block ≤ 1) := by
  have hiff : isLeader block = true ↔ block.header.peer_signature.length = 1 := by
    simp [isLeader]
  refine ⟨hiff, fun h => ?_⟩
  have h1 := countValidSignatures_le_length c block
  have h2 := hiff.mp h
  omega

/-- Witness for C11: the block with one valid signature from `P0`. -/
theorem isLeader_iff_one_entry_witness :
    isLeader blockP0 = true ∧ countValidSignatures toy blockP0 ≤ 1 :=
  ⟨by decide, (isLeader_iff_one_entry toy blockP0).2 (by decide)⟩

/-- C12 fails as stated: the public key `P0` already appears in the block, with an
invalid signature; appending a valid signature of `P0` raises the count from 0 to 1. -/
theorem duplicate_pubkey_raises_count :
    (∃ sig ∈ blockBadP0.header.peer_signature, sig.pubkey = (validSig "P0").pubkey)
      ∧ countValidSignatures toy blockBadP0 = 0
      ∧ countValidSignatures toy (appendSignature blockBadP0 (validSig "P0")) = 1 := by
  decide

/-- C12 as amended: when the public key of the appended entry already has a verifying
entry in the block, appending leaves the count unchanged. -/
theorem counted_pubkey_never_raises_count (c : Collaborators) (block : Block)
    (s : Signature)
    (hdup : ∃ sig ∈ block.header.peer_signature,
      sig.pubkey = s.pubkey ∧ verifies c block sig = true) :
    countValidSignatures c (appendSignature block s) = countValidSignatures c block := by
  rw [countValidSignatures_appendSignature]
  simp [hdup]

/-- Witness for C12: a second valid signature of `P0` on the block signed by `P0`. -/
theorem counted_pubkey_never_raises_count_witness :
    (∃ sig ∈ blockP0.header.peer_signature,
        sig.pubkey = (validSig "P0").pubkey ∧ verifies toy blockP0 sig = true)
      ∧ countValidSignatures toy (appendSignature blockP0 (validSig "P0")) =
          countValidSignatures toy blockP0 :=
  ⟨by decide, counted_pubkey_never_raises_count toy blockP0 (validSig "P0") (by decide)⟩

/-- C13: appending a signature entry, body unchanged, never lowers the count. -/
theorem countValidSignatures_mono_append (c : Collaborators) (block : Block)
    (s : Signature) :
    (appendSignature block s).body = block.body
      ∧ (appendSignature block s).header.peer_signature = block.header.peer_signature ++ [s]
      ∧ countValidSignatures c block ≤ countValidSignatures c (appendSignature block s) := by
  refine ⟨rfl, rfl, ?_⟩
  rw [countValidSignatures_appendSignature]
  exact Nat.le_add_right _ _

/-- C14: an entry that does not verify under its declared public key can be inserted at
any position without changing the count. -/
theorem invalid_signature_ignored (c : Collaborators) (block : Block) (i : Nat)
    (s : Signature)
    (hbad : c.verify s.signature (c.sha3_256_hex (c.serializeAsString block.body))
      s.pubkey = false) :
    countValidSignatures c (insertSignature block i s) = countValidSignatures c block := by
  have hv : verifies c block s = false := hbad
  rw [countValidSignatures_eq_card, countValidSignatures_eq_card, verifies_insertSignature]
  have hsigs : (insertSignature block i s).header.peer_signature =
      block.header.peer_signature.take i ++ s :: block.header.peer_signature.drop i := rfl
  rw [hsigs, List.filter_append, List.filter_cons, hv]
  simp only [Bool.false_eq_true, if_false]
  rw [← List.filter_append, List.take_append_drop]

/-- Witness for C14: an invalid entry of `P2` placed before the valid entry of `P2`; the
later valid entry is still counted. -/
theorem invalid_signature_ignored_witness :
    toy.verify (invalidSig "P2").signature
        (toy.sha3_256_hex (toy.serializeAsString blockP0P2.body)) (invalidSig "P2").pubkey
        = false
      ∧ (insertSignature blockP0P2 1 (invalidSig "P2")).header.peer_signature =
          [validSig "P0", invalidSig "P2", validSig "P2"]
      ∧ countValidSignatures toy blockP0P2 = 2
      ∧ countValidSignatures toy (insertSignature blockP0P2 1 (invalidSig "P2")) =
          countValidSignatures toy blockP0P2 :=
  ⟨by decide, by decide, by decide,
   invalid_signature_ignored toy blockP0P2 1 (invalidSig "P2") (by decide)⟩

/-! ### Timers, the dispatcher and the fallback chain -/

/-- In one run of `processBlock` the timers armed and the messages sent are equal in
number, at most one, and every message other than a unicast is a broadcast or commit. -/
theorem processBlock_counts (c : Collaborators) (ps : PeerService) (t : Nat)
    (block : Block) (p : Nat) :
    (processBlock c ps t block p).1.countP Effect.isTimer
        = (processBlock c ps t block p).1.countP Effect.isSend
      ∧ (processBlock c ps t block p).1.countP Effect.isSend ≤ 1
      ∧ (processBlock c ps t block p).1.countP Effect.isSend
        = (processBlock c ps t block p).1.countP Effect.isBroadCast
          + (processBlock c ps t block p).1.countP Effect.isUnicast
          + (processBlock c ps t block p).1.countP Effect.isCommit := by
  rcases processBlock_cases c ps t block p with
    ⟨_, hr⟩ | ⟨_, _, hr⟩ | ⟨_, _, _, _, hr⟩ | ⟨_, _, _, _, hr⟩ |
    ⟨_, _, _, hr⟩ | ⟨_, _, _, hr⟩ <;>
  simp [hr, List.countP_cons, Effect.isTimer, Effect.isSend, Effect.isBroadCast,
    Effect.isUnicast, Effect.isCommit]

/-- In one run of `panic` the timers armed and the messages sent are equal in number, at
most one, and the only message is a unicast. -/
theorem panic_counts (ps : PeerService) (block : Block) (p : Nat) :
    (panic ps block p).1.countP Effect.isTimer = (panic ps block p).1.countP Effect.isSend
      ∧ (panic ps block p).1.countP Effect.isSend ≤ 1
      ∧ (panic ps block p).1.countP Effect.isSend
        = (panic ps block p).1.countP Effect.isBroadCast
          + (panic ps block p).1.countP Effect.isUnicast
          + (panic ps block p).1.countP Effect.isCommit := by
  by_cases h : p < ps.getNumAllPeers
  · simp [panic_of_lt ps block p h, List.countP_cons, Effect.isTimer, Effect.isSend,
      Effect.isBroadCast, Effect.isUnicast, Effect.isCommit]
  · simp [panic_of_ge ps block p (by omega), List.countP_cons, Effect.isTimer,
      Effect.isSend, Effect.isBroadCast, Effect.isUnicast, Effect.isCommit]

/-- A unicast of `processBlock` goes to the stored position, which is below the peer
count, and advances the stored position by one. -/
theorem processBlock_unicast_mem (c : Collaborators) (ps : PeerService) (t : Nat)
    (block : Block) (p : Nat) (b : Block) (pos : Nat)
    (h : Effect.unicast b pos ∈ (processBlock c ps t block p).1) :
    pos = p ∧ p < ps.getNumAllPeers ∧ (processBlock c ps t block p).2 = p + 1
      ∧ b = createSignedBlock c t block (appendBlock block) := by
  rcases processBlock_cases c ps t block p with
    ⟨_, hr⟩ | ⟨_, _, hr⟩ | ⟨_, _, _, hp, hr⟩ | ⟨_, _, _, _, hr⟩ |
    ⟨_, _, _, hr⟩ | ⟨_, _, _, hr⟩
  · rw [hr] at h; simp at h
  · rw [hr] at h; simp at h
  · rw [hr] at h ⊢
    simp only [List.mem_cons, List.mem_singleton, List.not_mem_nil, or_false,
      Effect.unicast.injEq] at h
    rcases h with ⟨hb, hpos⟩ | h
    · exact ⟨hpos, hp, rfl, hb⟩
    · cases h
  · rw [hr] at h; simp at h
  · rw [hr] at h; simp at h
  · rw [hr] at h; simp at h

/-- A unicast of `panic` goes to the stored position, which is below the peer count,
carries the unchanged block, and advances the stored position by one. -/
theorem panic_unicast_mem (ps : PeerService) (block : Block) (p : Nat) (b : Block)
    (pos : Nat) (h : Effect.unicast b pos ∈ (panic ps block p).1) :
    pos = p ∧ p < ps.getNumAllPeers ∧ (panic ps block p).2 = p + 1 ∧ b = block := by
  by_cases hp : p < ps.getNumAllPeers
  · rw [panic_of_lt ps block p hp] at h ⊢
    simp only [List.mem_cons, List.mem_singleton, List.not_mem_nil, or_false,
      Effect.unicast.injEq] at h
    rcases h with ⟨hb, hpos⟩ | h
    · exact ⟨hpos, hp, rfl, hb⟩
    · cases h
  · rw [panic_of_ge ps block p (by omega)] at h; simp at h

/-- C15: in every run of `processBlock` and of `panic` the number of timers armed equals
the number of messages sent (broadcast, unicast or commit), and both are 0 or 1. -/
theorem timer_coverage (c : Collaborators) (ps : PeerService) (t : Nat) (block : Block)
    (p : Nat) :
    ((processBlock c ps t block p).1.countP Effect.isTimer
          = (processBlock c ps t block p).1.countP Effect.isSend
        ∧ (processBlock c ps t block p).1.countP Effect.isSend ≤ 1)
      ∧ ((panic ps block p).1.countP Effect.isTimer
          = (panic ps block p).1.countP Effect.isSend
        ∧ (panic ps block p).1.countP Effect.isSend ≤ 1) :=
  ⟨⟨(processBlock_counts c ps t block p).1, (processBlock_counts c ps t block p).2.1⟩,
   ⟨(panic_counts ps block p).1, (panic_counts ps block p).2.1⟩⟩

/-- C16 (what the code does): the committed check of the inbound handler is the literal
`false`, so a `processBlock` task is submitted for every received block, committed or
not; delivering the same block twice submits it twice. -/
theorem receiveHandler_submits_every_block (block : Block) :
    receiveHandler block = [block]
      ∧ receiveHandler block ++ receiveHandler block = [block, block] := by
  simp [receiveHandler]

/-- C17: when a relay (`processBlock`) or a `panic` has unicast to position `pos` and the
next `panic` finds the chain not exhausted, that `panic` unicasts the block it was given,
unchanged, to position `pos + 1` and arms one timer; two consecutive non-exhausted
results of `getNextOrder` differ by exactly one. -/
theorem panic_extends_chain_by_one (c : Collaborators) (ps : PeerService) (t : Nat)
    (A B b : Block) (p pos : Nat) :
    (Effect.unicast b pos ∈ (processBlock c ps t A p).1 →
        (getNextOrder ps (processBlock c ps t A p).2).1 ≠ -1 →
        panic ps B (processBlock c ps t A p).2 =
          ([Effect.unicast B (pos + 1), Effect.setTimeOutCommit B], pos + 2))
      ∧ (Effect.unicast b pos ∈ (panic ps A p).1 →
        (getNextOrder ps (panic ps A p).2).1 ≠ -1 →
        panic ps B (panic ps A p).2 =
          ([Effect.unicast B (pos + 1), Effect.setTimeOutCommit B], pos + 2))
      ∧ ((getNextOrder ps p).1 ≠ -1 →
        (getNextOrder ps (getNextOrder ps p).2).1 ≠ -1 →
        (getNextOrder ps (getNextOrder ps p).2).1 = (getNextOrder ps p).1 + 1) := by
  refine ⟨fun h hne => ?_, fun h hne => ?_, fun h1 h2 => ?_⟩
  · obtain ⟨hpos, _, hst, _⟩ := processBlock_unicast_mem c ps t A p b pos h
    rw [hst] at hne ⊢
    subst hpos
    have hlt : pos + 1 < ps.getNumAllPeers := by
      by_contra hge
      exact hne ((getNextOrder_eq_neg_one_iff ps (pos + 1)).mpr (by omega))
    exact panic_of_lt ps B (pos + 1) hlt
  · obtain ⟨hpos, _, hst, _⟩ := panic_unicast_mem ps A p b pos h
    rw [hst] at hne ⊢
    subst hpos
    have hlt : pos + 1 < ps.getNumAllPeers := by
      by_contra hge
      exact hne ((getNextOrder_eq_neg_one_iff ps (pos + 1)).mpr (by omega))
    exact panic_of_lt ps B (pos + 1) hlt
  · have hp : p < ps.getNumAllPeers := by
      by_contra hge
      exact h1 ((getNextOrder_eq_neg_one_iff ps p).mpr (by omega))
    rw [getNextOrder_of_lt ps p hp] at h2 ⊢
    have hp1 : p + 1 < ps.getNumAllPeers := by
      by_contra hge
      exact h2 ((getNextOrder_eq_neg_one_iff ps (p + 1)).mpr (by omega))
    rw [getNextOrder_of_lt ps (p + 1) hp1]
    simp

/-- Witness for C17: scenarios S1 then S5 (`N = 4`, `f = 1`): the relay goes to position
2, the panic that follows to position 3; and a panic after a panic likewise. -/
theorem panic_extends_chain_by_one_witness :
    panic scenario blockP0 (processBlock toy scenario 7 blockP0 2).2 =
        ([Effect.unicast blockP0 (2 + 1), Effect.setTimeOutCommit blockP0], 2 + 2)
      ∧ panic scenario blockP3 (panic scenario blockP0 2).2 =
        ([Effect.unicast blockP3 (2 + 1), Effect.setTimeOutCommit blockP3], 2 + 2)
      ∧ (getNextOrder scenario (getNextOrder scenario 2).2).1
          = (getNextOrder scenario 2).1 + 1 :=
  ⟨(panic_extends_chain_by_one toy scenario 7 blockP0 blockP0
      (createSignedBlock toy 7 blockP0 (appendBlock blockP0)) 2 2).1
      (by decide) (by decide),
   (panic_extends_chain_by_one toy scenario 7 blockP0 blockP3 blockP0 2 2).2.1
      (by decide) (by decide),
   (panic_extends_chain_by_one toy scenario 7 blockP0 blockP0 blockP0 2 2).2.2
      (by decide) (by decide)⟩

/-! ### Signing as a frame, and invariants of invocation sequences -/

/-- The count reads only the body and the signature list of a block. -/
theorem countValidSignatures_congr (c : Collaborators) (b1 b2 : Block)
    (hbody : b1.body = b2.body)
    (hsigs : b1.header.peer_signature = b2.header.peer_signature) :
    countValidSignatures c b1 = countValidSignatures c b2 := by
  have hv : verifies c b1 = verifies c b2 := by
    funext sig
    simp [verifies, hbody]
  rw [countValidSignatures_eq_card, countValidSignatures_eq_card, hv, hsigs]

/-- C18: `createSignedBlock` keeps the body, keeps the signature list in order and adds
exactly one entry at the end, carrying the local public key; besides that entry only
`created_time` changes.  Every entry that verified on the input verifies on the output,
and the count does not decrease. -/
theorem createSignedBlock_frame (c : Collaborators) (t : Nat) (block : Block)
    (merkleRoot : String) :
    (createSignedBlock c t block merkleRoot).body = block.body
      ∧ (createSignedBlock c t block merkleRoot).header.peer_signature =
          block.header.peer_signature ++
            [{ pubkey := "pk", signature := c.sign merkleRoot "pk" "sk" }]
      ∧ (createSignedBlock c t block merkleRoot).header.created_time = t
      ∧ (∀ sig ∈ block.header.peer_signature,
          sig ∈ (createSignedBlock c t block merkleRoot).header.peer_signature
            ∧ (verifies c block sig = true →
                verifies c (createSignedBlock c t block merkleRoot) sig = true))
      ∧ countValidSignatures c block
          ≤ countValidSignatures c (createSignedBlock c t block merkleRoot) := by
  refine ⟨rfl, rfl, rfl, fun sig hsig => ⟨?_, fun hv => ?_⟩, ?_⟩
  · show sig ∈ block.header.peer_signature ++ _
    exact List.mem_append_left _ hsig
  · rw [verifies_createSignedBlock]; exact hv
  · have hcongr := countValidSignatures_congr c
      (createSignedBlock c t block merkleRoot)
      (appendSignature block { pubkey := "pk", signature := c.sign merkleRoot "pk" "sk" })
      rfl rfl
    rw [hcongr, countValidSignatures_appendSignature]
    exact Nat.le_add_right _ _

/-- Witness for C18: signing the block that carries one valid signature from `P0`. -/
theorem createSignedBlock_frame_witness :
    validSig "P0" ∈ (createSignedBlock toy 7 blockP0 "root").header.peer_signature
      ∧ (verifies toy blockP0 (validSig "P0") = true →
          verifies toy (createSignedBlock toy 7 blockP0 "root") (validSig "P0") = true) :=
  (createSignedBlock_frame toy 7 blockP0 "root").2.2.2.1 (validSig "P0") (by decide)

/-- The startup value of the stored proxy tail is `2f`. -/
theorem initialProxyTail_eq (ps : PeerService) :
    initialProxyTail ps = 2 * ps.getMaxFaulty := by
  simp [initialProxyTail, PeerService.getNumValidatingPeers]
  omega

/-- A unicast of one invocation goes to the stored position, which is below the peer
count. -/
theorem run_unicast_mem (c : Collaborators) (ps : PeerService) (inv : Invocation)
    (p : Nat) (b : Block) (pos : Nat) (h : Effect.unicast b pos ∈ (inv.run c ps p).1) :
    pos = p ∧ p < ps.getNumAllPeers := by
  cases inv with
  | processBlockCall t block =>
    have := processBlock_unicast_mem c ps t block p b pos h
    exact ⟨this.1, this.2.1⟩
  | panicCall block =>
    have := panic_unicast_mem ps block p b pos h
    exact ⟨this.1, this.2.1⟩

/-- The stored proxy tail never decreases under an invocation. -/
theorem le_run_snd (c : Collaborators) (ps : PeerService) (inv : Invocation) (p : Nat) :
    p ≤ (inv.run c ps p).2 := by
  cases inv with
  | processBlockCall t block => exact le_processBlock_snd c ps t block p
  | panicCall block => exact le_panic_snd ps block p

/-- From a stored value `p`, every unicast of a sequence of invocations goes to a
position between `p` and `N - 1`, and the stored value does not decrease. -/
theorem runAll_unicast_range (c : Collaborators) (ps : PeerService) :
    ∀ (invs : List Invocation) (p : Nat),
      p ≤ (runAll c ps invs p).2
        ∧ ∀ b pos, Effect.unicast b pos ∈ (runAll c ps invs p).1 →
            p ≤ pos ∧ pos < ps.getNumAllPeers := by
  intro invs
  induction invs with
  | nil => intro p; simp [runAll]
  | cons inv rest ih =>
    intro p
    have hstep := le_run_snd c ps inv p
    obtain ⟨hle, hrange⟩ := ih (inv.run c ps p).2
    refine ⟨?_, fun b pos h => ?_⟩
    · show p ≤ (runAll c ps rest (inv.run c ps p).2).2
      omega
    · have h' : Effect.unicast b pos ∈
          (inv.run c ps p).1 ++ (runAll c ps rest (inv.run c ps p).2).1 := h
      rcases List.mem_append.mp h' with h1 | h2
      · obtain ⟨hpos, hlt⟩ := run_unicast_mem c ps inv p b pos h1
        omega
      · obtain ⟨h3, h4⟩ := hrange b pos h2
        exact ⟨by omega, h4⟩

/-- C19: in every sequence of `processBlock` and `panic` invocations from the startup
proxy tail `2f`, every position passed to `sender.unicast` lies in `2f ≤ t ≤ N - 1`, and
the next call of `getNextOrder` returns `-1` or a value in that range. -/
theorem unicast_positions_in_range (c : Collaborators) (ps : PeerService)
    (invs : List Invocation) :
    (∀ b pos, Effect.unicast b pos ∈ (runAll c ps invs (initialProxyTail ps)).1 →
        2 * ps.getMaxFaulty ≤ pos ∧ pos ≤ ps.getNumAllPeers - 1
          ∧ pos < ps.getNumAllPeers)
      ∧ ((getNextOrder ps (runAll c ps invs (initialProxyTail ps)).2).1 = -1
        ∨ ((2 * ps.getMaxFaulty : Int)
              ≤ (getNextOrder ps (runAll c ps invs (initialProxyTail ps)).2).1
            ∧ (getNextOrder ps (runAll c ps invs (initialProxyTail ps)).2).1
              ≤ (ps.getNumAllPeers : Int) - 1)) := by
  obtain ⟨hle, hrange⟩ := runAll_unicast_range c ps invs (initialProxyTail ps)
  rw [initialProxyTail_eq] at hle hrange
  rw [initialProxyTail_eq]
  refine ⟨fun b pos h => ?_, ?_⟩
  · obtain ⟨h1, h2⟩ := hrange b pos h
    exact ⟨h1, by omega, h2⟩
  · by_cases hp : (runAll c ps invs (2 * ps.getMaxFaulty)).2 < ps.getNumAllPeers
    · right
      rw [getNextOrder_of_lt ps _ hp]
      constructor
      · show ((2 * ps.getMaxFaulty : Int)) ≤ ((runAll c ps invs (2 * ps.getMaxFaulty)).2 : Int)
        omega
      · show ((runAll c ps invs (2 * ps.getMaxFaulty)).2 : Int) ≤ (ps.getNumAllPeers : Int) - 1
        omega
    · left
      rw [getNextOrder_of_ge ps _ (by omega)]

/-- Witness for C19: `N = 4`, `f = 1`; a relay followed by two panics unicasts to
positions 2 and 3 only. -/
theorem unicast_positions_in_range_witness :
    Effect.unicast blockP0 3 ∈
        (runAll toy scenario
          [Invocation.processBlockCall 7 blockP0, Invocation.panicCall blockP0,
           Invocation.panicCall blockP0] (initialProxyTail scenario)).1
      ∧ (2 * scenario.getMaxFaulty ≤ 3 ∧ 3 ≤ scenario.getNumAllPeers - 1
          ∧ 3 < scenario.getNumAllPeers) :=
  ⟨by decide,
   (unicast_positions_in_range toy scenario
      [Invocation.processBlockCall 7 blockP0, Invocation.panicCall blockP0,
       Invocation.panicCall blockP0]).1 blockP0 3 (by decide)⟩

/-- Once the stored value has reached the peer count, no sequence of invocations changes
it or sends a unicast, and every timer belongs to a broadcast or a commit. -/
theorem runAll_exhausted (c : Collaborators) (ps : PeerService) (p : Nat)
    (hp : ps.getNumAllPeers ≤ p) :
    ∀ (invs : List Invocation),
      (runAll c ps invs p).2 = p
        ∧ (∀ e ∈ (runAll c ps invs p).1, e.isUnicast = false)
        ∧ (runAll c ps invs p).1.countP Effect.isTimer
            = (runAll c ps invs p).1.countP Effect.isBroadCast
              + (runAll c ps invs p).1.countP Effect.isCommit := by
  intro invs
  induction invs with
  | nil => simp [runAll]
  | cons inv rest ih =>
    obtain ⟨ih1, ih2, ih3⟩ := ih
    have hno : ∀ e ∈ (inv.run c ps p).1, e.isUnicast = false := by
      intro e he
      cases e with
      | unicast b pos =>
        have := run_unicast_mem c ps inv p b pos he
        omega
      | _ => rfl
    have hst : (inv.run c ps p).2 = p := by
      cases inv with
      | processBlockCall t block =>
        rcases processBlock_cases c ps t block p with
          ⟨_, hr⟩ | ⟨_, _, hr⟩ | ⟨_, _, _, hlt, hr⟩ | ⟨_, _, _, _, hr⟩ |
          ⟨_, _, _, hr⟩ | ⟨_, _, _, hr⟩
        · exact congrArg Prod.snd hr
        · exact congrArg Prod.snd hr
        · omega
        · exact congrArg Prod.snd hr
        · exact congrArg Prod.snd hr
        · exact congrArg Prod.snd hr
      | panicCall block => exact congrArg Prod.snd (panic_of_ge ps block p hp)
    have hcnt : (inv.run c ps p).1.countP Effect.isTimer
        = (inv.run c ps p).1.countP Effect.isBroadCast
          + (inv.run c ps p).1.countP Effect.isCommit := by
      have hzero : (inv.run c ps p).1.countP Effect.isUnicast = 0 := by
        rw [List.countP_eq_zero]
        intro e he
        simp [hno e he]
      cases inv with
      | processBlockCall t block =>
        have h := processBlock_counts c ps t block p
        have hz : (processBlock c ps t block p).1.countP Effect.isUnicast = 0 := hzero
        show (processBlock c ps t block p).1.countP Effect.isTimer = _
        rw [h.1, h.2.2, hz]
        rfl
      | panicCall block =>
        have h := panic_counts ps block p
        have hz : (panic ps block p).1.countP Effect.isUnicast = 0 := hzero
        show (panic ps block p).1.countP Effect.isTimer = _
        rw [h.1, h.2.2, hz]
        rfl
    have hrun : runAll c ps (inv :: rest) p =
        ((inv.run c ps p).1 ++ (runAll c ps rest p).1, (runAll c ps rest p).2) := by
      show ((inv.run c ps p).1 ++ (runAll c ps rest (inv.run c ps p).2).1,
        (runAll c ps rest (inv.run c ps p).2).2) = _
      rw [hst]
    rw [hrun]
    refine ⟨ih1, fun e he => ?_, ?_⟩
    · rcases List.mem_append.mp he with h1 | h2
      · exact hno e h1
      · exact ih2 e h2
    · simp only [List.countP_append]
      omega

/-- C20: with the constants as written (`f = 3`, `N = 4`, startup proxy tail 6)
`getNextOrder` returns `-1` and leaves its stored value at 6 on every call, so in every
sequence of `processBlock` and `panic` invocations no unicast is sent, `panic` only logs
the denial, and every timer armed belongs to a broadcast or a commit. -/
theorem hardcoded_never_relays (c : Collaborators) (invs : List Invocation) :
    initialProxyTail hardcoded = 6
      ∧ getNextOrder hardcoded 6 = (-1, 6)
      ∧ (runAll c hardcoded invs (initialProxyTail hardcoded)).2 = 6
      ∧ (∀ e ∈ (runAll c hardcoded invs (initialProxyTail hardcoded)).1,
          e.isUnicast = false)
      ∧ (runAll c hardcoded invs (initialProxyTail hardcoded)).1.countP Effect.isTimer
          = (runAll c hardcoded invs (initialProxyTail hardcoded)).1.countP
              Effect.isBroadCast
            + (runAll c hardcoded invs (initialProxyTail hardcoded)).1.countP
              Effect.isCommit
      ∧ (∀ block, panic hardcoded block 6 = ([Effect.logInfo "否認"], 6)) := by
  have hinit : initialProxyTail hardcoded = 6 := by decide
  have hge : hardcoded.getNumAllPeers ≤ 6 := by decide
  obtain ⟨h1, h2, h3⟩ := runAll_exhausted c hardcoded 6 hge invs
  rw [hinit]
  exact ⟨rfl, by decide, h1, h2, h3, fun block => panic_of_ge hardcoded block 6 hge⟩

/-! ### Scope of the proxy tail on the constants of the source -/

end Sumeragi
